import Mathlib

/-!
Verification of the batched bulk email dispatcher of glen-ai-agent
(src/tools/email_sender.ts), shallowly embedded in Lean.

Modelling conventions:
- The Resend SDK call `this.resend.emails.send(args)` is the single external
  transport operation.  Its behaviour is a parameter
  `transport : SendPayload → TransportBehavior`: the promise either resolves
  with `{data, error}` (each possibly null, modelled as `Option`) or rejects
  with a thrown value (an `Error` carrying a message, or something else,
  modelled as `Option String`).
- JavaScript `a || b` on optional strings treats both `undefined` and `""`
  as falsy; `jsOrDefault` models this.
- Logging calls are effect-free for every property below and are omitted.
- `sendCampaign` is instrumented with a trace: the outcome list the source
  returns, the list of transport invocations (the source calls the transport
  exactly once per `sendEmail`, with the payload built at
  email_sender.ts:61-67), and the number of inter-batch `delay(1000)` calls
  (email_sender.ts:123-125).
- Recursions are written with an explicit fuel argument equal to the input
  length, so that every definition is structural and computes by `decide`;
  fuel-independence lemmas are proved below.
-/

/-- JavaScript regex class `\s` (ECMA-262 WhiteSpace and LineTerminator). -/
def isJsWhitespace (c : Char) : Bool :=
  c = ' ' || c = '\t' || c = '\n' || c = '\r' || c = '\x0b' || c = '\x0c' ||
  c = '\u00A0' || c = '\u1680' || ('\u2000' ≤ c && c ≤ '\u200A') || c = '\u2028' ||
  c = '\u2029' || c = '\u202F' || c = '\u205F' || c = '\u3000' || c = '\uFEFF'

/-- Character class `[^\s@]` of the validation regex at email_sender.ts:184. -/
def atomChar (c : Char) : Bool :=
  !(isJsWhitespace c) && !(c = '@')

/-- Split a character list at the first occurrence of `sep`:
`some (before, after)` when `sep` occurs, `none` otherwise. -/
def breakAtChar (sep : Char) : List Char → Option (List Char × List Char)
  | [] => none
  | c :: cs =>
    if c = sep then some ([], cs)
    else
      match breakAtChar sep cs with
      | some (l, r) => some (c :: l, r)
      | none => none

/-- True when the list contains a dot with at least one character after it. -/
def hasDotBeforeLast : List Char → Bool
  | [] => false
  | c :: cs => (c = '.' && cs ≠ []) || hasDotBeforeLast cs

/-- True when the list contains a dot that is neither its first nor its last
character. -/
def hasInteriorDot : List Char → Bool
  | [] => false
  | _ :: rest => hasDotBeforeLast rest

/-- `string | string[]` for the `to` field of `EmailData`. -/
inductive StringOrList where
  | single (s : String)
  | multi (l : List String)
deriving DecidableEq

/-- `Array.isArray(to) ? to : [to]` (email_sender.ts:63). -/
def StringOrList.toAddressList : StringOrList → List String
  | .single s => [s]
  | .multi l => l

/-- The `EmailData` interface (email_sender.ts:9-16).  Optional fields are
`Option`s; an absent field is `none`.  `from` is a Lean keyword, hence
`from_`. -/
structure EmailData where
  «to» : StringOrList
  subject : String
  content : String
  from_ : Option String
  html : Option String
  text : Option String
deriving DecidableEq

/-- The `EmailResponse` interface (email_sender.ts:18-22). -/
structure EmailResponse where
  success : Bool
  messageId : Option String
  error : Option String
deriving DecidableEq

/-- The argument object passed to `resend.emails.send` (email_sender.ts:61-67). -/
structure SendPayload where
  from_ : String
  «to» : List String
  subject : String
  html : String
  text : String
deriving DecidableEq

/-- Outcome of one transport invocation: the promise resolves with
`{data, error}` (`dataId` is `data?.id`, `errorMsg` is `error?.message`), or
rejects with a thrown value (`some msg` when it is an `Error` with that
message, `none` otherwise). -/
inductive TransportBehavior where
  | resolve (dataId : Option String) (errorMsg : Option String)
  | reject (thrown : Option String)
deriving DecidableEq

/-- JavaScript `v || fallback` on `string | undefined`: both `undefined` and
the empty string are falsy. -/
def jsOrDefault : Option String → String → String
  | some s, fallback => if s = "" then fallback else s
  | none, fallback => fallback

/-- Consume characters up to and including the first `>`, returning the
remainder; `none` when no `>` occurs. -/
def dropThroughGt : List Char → Option (List Char)
  | [] => none
  | c :: cs => if c = '>' then some cs else dropThroughGt cs

/-- One global pass of `html.replace(/<[^>]*>/g, "")` (email_sender.ts:192) on
a character list: at each `<`, the leftmost match of `<[^>]*>` extends to the
first following `>` and is deleted; a `<` never followed by `>` starts no
match, and since no `>` remains, the rest of the string is kept verbatim.
`fuel` bounds the recursion depth; any `fuel ≥ length` gives the same
result. -/
def stripHtmlFuel : Nat → List Char → List Char
  | _, [] => []
  | 0, l => l
  | fuel + 1, c :: cs =>
    if c = '<' then
      match dropThroughGt cs with
      | some rest => stripHtmlFuel fuel rest
      | none => c :: cs
    else c :: stripHtmlFuel fuel cs

/-- `stripHtmlFuel` at its sufficient fuel. -/
def stripChars (l : List Char) : List Char :=
  stripHtmlFuel l.length l

namespace EmailSender

/-- `this.defaultFrom` (email_sender.ts:29). -/
def defaultFrom : String := "Glen AI Agent <noreply@yourdomain.com>"

/-- `stripHtml` (email_sender.ts:191-193). -/
def stripHtml (html : String) : String :=
  String.mk (stripChars html.toList)

/-- `validateEmail` (email_sender.ts:183-186): the regex
`/^[^\s@]+@[^\s@]+\.[^\s@]+$/`.  A string is in the language of this regex
exactly when it decomposes as `l ++ "@" ++ m ++ "." ++ r` with `l`, `m`, `r`
non-empty strings of `[^\s@]` characters.  Since `[^\s@]` excludes `@`, the
separating `@` is the unique (hence first) `@` of the string, so the string
matches iff: splitting at the first `@` gives a non-empty all-`[^\s@]` part
`l` and a remainder `d` that is all-`[^\s@]` (in particular contains no
further `@`) and contains a dot that is neither its first nor its last
character (the dot separating the non-empty `m` from the non-empty `r`; note
`.` itself lies in `[^\s@]`, so `m` and `r` may contain further dots). -/
def validateEmail (email : String) : Bool :=
  match breakAtChar '@' email.toList with
  | none => false
  | some (localPart, domainPart) =>
    !localPart.isEmpty && localPart.all atomChar && domainPart.all atomChar &&
      hasInteriorDot domainPart

/-- The argument object of the `resend.emails.send` call inside `sendEmail`
(email_sender.ts:61-67). -/
def mkPayload (emailData : EmailData) : SendPayload :=
  { from_ := jsOrDefault emailData.from_ defaultFrom
  , «to» := emailData.«to».toAddressList
  , subject := emailData.subject
  , html := jsOrDefault emailData.html emailData.content
  , text := jsOrDefault emailData.text (stripHtml emailData.content) }

/-- The try-block of `sendEmail` (email_sender.ts:54-81): awaiting the
transport rethrows a rejection (`Except.error`); otherwise the `{data, error}`
result is inspected, `error` first. -/
def sendEmailAttempt (transport : SendPayload → TransportBehavior)
    (emailData : EmailData) : Except (Option String) EmailResponse :=
  match transport (mkPayload emailData) with
  | .reject thrown => .error thrown
  | .resolve _ (some msg) => .ok ⟨false, none, some msg⟩
  | .resolve dataId none => .ok ⟨true, dataId, none⟩

/-- `sendEmail` (email_sender.ts:53-89): the catch-block converts a thrown
value into `{success: false, error: error instanceof Error ? error.message :
"Unknown error"}`. -/
def sendEmail (transport : SendPayload → TransportBehavior)
    (emailData : EmailData) : EmailResponse :=
  match sendEmailAttempt transport emailData with
  | .ok r => r
  | .error thrown => ⟨false, none, some (thrown.getD "Unknown error")⟩

/-- `const batchSize = 10` (email_sender.ts:106). -/
def batchSize : Nat := 10

end EmailSender

/-- The per-recipient `EmailData` built inside `sendCampaign`
(email_sender.ts:110-117): `{to: recipient, subject, content, from}`; `html`
and `text` are not set. -/
def campaignEmailData (subject content : String) (from_ : Option String)
    (recipient : String) : EmailData :=
  { «to» := .single recipient
  , subject := subject
  , content := content
  , from_ := from_
  , html := none
  , text := none }

/-- Instrumented result of `sendCampaign`: the returned outcome list, the
transport invocations in order, and the number of inter-batch delays. -/
structure CampaignTrace where
  results : List EmailResponse
  transportCalls : List SendPayload
  delays : Nat
deriving DecidableEq

/-- The batch loop of `sendCampaign` (email_sender.ts:107-126), recursing on
the recipients not yet processed (the source slice from index `i`, of length
`recipients.length - i`).  The source delay condition
`i + batchSize < recipients.length` is `batchSize < length of the remaining
slice`, i.e. it holds exactly when recipients remain after the current batch.
`fuel` bounds the recursion depth; any `fuel ≥ length` gives the same
result. -/
def sendCampaignLoopFuel (transport : SendPayload → TransportBehavior)
    (mkData : String → EmailData) : Nat → List String → CampaignTrace
  | _, [] => ⟨[], [], 0⟩
  | 0, _ :: _ => ⟨[], [], 0⟩
  | fuel + 1, r :: rs =>
    let batch := (r :: rs).take EmailSender.batchSize
    let rest := (r :: rs).drop EmailSender.batchSize
    let tail := sendCampaignLoopFuel transport mkData fuel rest
    ⟨batch.map (fun x => EmailSender.sendEmail transport (mkData x)) ++ tail.results,
     batch.map (fun x => EmailSender.mkPayload (mkData x)) ++ tail.transportCalls,
     (if EmailSender.batchSize < (r :: rs).length then 1 else 0) + tail.delays⟩

/-- `sendCampaign` (email_sender.ts:94-136).  The body performs no input
validation; its try-block cannot throw (per-recipient faults are already
converted inside `sendEmail`), so the catch-and-rethrow at
email_sender.ts:132-135 is dead and the function totally returns its result
list. -/
def EmailSender.sendCampaign (transport : SendPayload → TransportBehavior)
    (recipients : List String) (subject content : String)
    (from_ : Option String) : CampaignTrace :=
  sendCampaignLoopFuel transport (campaignEmailData subject content from_)
    recipients.length recipients

/-- A transport that always succeeds with message id `msg-1`. -/
def alwaysOkTransport : SendPayload → TransportBehavior :=
  fun _ => .resolve (some "msg-1") none

/-- A transport whose promise always rejects with a network error. -/
def alwaysFaultTransport : SendPayload → TransportBehavior :=
  fun _ => .reject (some "network error")

/-- Modelled from the claimed grammar for the validator (spec sections 3 and
6): a non-empty local part, an at sign, a non-empty domain, and no whitespace
anywhere.  A string satisfies that grammar exactly when some at sign occupies
a position that is neither the first nor the last character (the split point
into the two non-empty parts) and no character is whitespace; this definition
is that reformulation.  It exists only to be compared against the behaviour
of `EmailSender.validateEmail`. -/
def specTwoPartAddress (s : String) : Bool :=
  ((s.toList.drop 1).dropLast.contains '@') && s.toList.all (fun c => !isJsWhitespace c)

/-! ## Helper lemmas about the validator components -/

theorem not_isEmpty_iff_ne_nil {α : Type} (l : List α) : (!l.isEmpty) = true ↔ l ≠ [] := by
  cases l <;> simp

theorem breakAtChar_sound {sep : Char} (cs : List Char) :
    ∀ (l r : List Char), breakAtChar sep cs = some (l, r) →
      cs = l ++ sep :: r ∧ sep ∉ l := by
  induction cs with
  | nil => intro l r h; simp [breakAtChar] at h
  | cons c cs ih =>
    intro l r h
    rw [breakAtChar] at h
    split at h
    · next hc =>
        injection h with h2
        injection h2 with h3 h4
        subst h3; subst h4; subst hc
        simp
    · next hc =>
        split at h
        · next l2 r2 hb =>
            injection h with h2
            injection h2 with h3 h4
            subst h3; subst h4
            obtain ⟨hcs, hnot⟩ := ih l2 r2 hb
            constructor
            · rw [hcs]; rfl
            · intro hmem
              rcases List.mem_cons.mp hmem with h5 | h5
              · exact hc h5.symm
              · exact hnot h5
        · exact absurd h (by simp)

theorem breakAtChar_complete {sep : Char} (l : List Char) :
    ∀ (r : List Char), sep ∉ l → breakAtChar sep (l ++ sep :: r) = some (l, r) := by
  induction l with
  | nil => intro r _; simp [breakAtChar]
  | cons c l ih =>
    intro r hnot
    have hc : ¬(c = sep) := fun h => hnot (by rw [h]; exact List.mem_cons_self _ _)
    have hl : sep ∉ l := fun h => hnot (List.mem_cons_of_mem _ h)
    rw [List.cons_append, breakAtChar, if_neg hc, ih r hl]

theorem hasDotBeforeLast_iff (l : List Char) :
    hasDotBeforeLast l = true ↔ ∃ m r : List Char, l = m ++ '.' :: r ∧ r ≠ [] := by
  induction l with
  | nil =>
    constructor
    · intro h; simp [hasDotBeforeLast] at h
    · rintro ⟨m, r, h, hr⟩
      exact absurd h.symm (by simp)
  | cons c cs ih =>
    rw [hasDotBeforeLast]
    constructor
    · intro h
      rcases Bool.or_eq_true _ _ |>.mp h with h1 | h1
      · rw [Bool.and_eq_true, decide_eq_true_eq, decide_eq_true_eq] at h1
        exact ⟨[], cs, by simp [h1.1], h1.2⟩
      · obtain ⟨m, r, heq, hr⟩ := ih.mp h1
        exact ⟨c :: m, r, by rw [heq]; rfl, hr⟩
    · rintro ⟨m, r, heq, hr⟩
      rw [Bool.or_eq_true]
      match m with
      | [] =>
        left
        injection heq with h1 h2
        rw [Bool.and_eq_true, decide_eq_true_eq, decide_eq_true_eq]
        exact ⟨h1, by rw [h2]; exact hr⟩
      | x :: m =>
        right
        injection heq with h1 h2
        exact ih.mpr ⟨m, r, h2, hr⟩

theorem hasInteriorDot_iff (d : List Char) :
    hasInteriorDot d = true ↔ ∃ m r : List Char, d = m ++ '.' :: r ∧ m ≠ [] ∧ r ≠ [] := by
  cases d with
  | nil =>
    constructor
    · intro h; simp [hasInteriorDot] at h
    · rintro ⟨m, r, h, hm, hr⟩
      exact absurd h.symm (by simp)
  | cons c cs =>
    rw [hasInteriorDot, hasDotBeforeLast_iff]
    constructor
    · rintro ⟨m, r, heq, hr⟩
      exact ⟨c :: m, r, by rw [heq]; rfl, by simp, hr⟩
    · rintro ⟨m, r, heq, hm, hr⟩
      match m with
      | [] => exact absurd rfl hm
      | x :: m =>
        injection heq with h1 h2
        exact ⟨m, r, h2, hr⟩

/-- `validateEmail` accepts exactly the language of the source regex
`^[^\s@]+@[^\s@]+\.[^\s@]+$`, stated as a decomposition of the input. -/
theorem validateEmail_characterization (s : String) :
    EmailSender.validateEmail s = true ↔
      ∃ l m r : List Char, s.toList = l ++ '@' :: (m ++ '.' :: r) ∧
        l ≠ [] ∧ m ≠ [] ∧ r ≠ [] ∧
        l.all atomChar = true ∧ m.all atomChar = true ∧ r.all atomChar = true := by
  constructor
  · intro h
    rw [EmailSender.validateEmail] at h
    split at h
    · exact absurd h (by simp)
    · next localPart domainPart hb =>
        simp only [Bool.and_eq_true] at h
        obtain ⟨⟨⟨hne, hlall⟩, hdall⟩, hdot⟩ := h
        obtain ⟨hcs, _⟩ := breakAtChar_sound s.toList localPart domainPart hb
        obtain ⟨m, r, hd, hm, hr⟩ := (hasInteriorDot_iff domainPart).mp hdot
        rw [hd] at hdall
        simp only [List.all_append, List.all_cons, Bool.and_eq_true] at hdall
        refine ⟨localPart, m, r, ?_, ?_, hm, hr, hlall, hdall.1, hdall.2.2⟩
        · rw [hcs, hd]
        · exact (not_isEmpty_iff_ne_nil localPart).mp hne
  · rintro ⟨l, m, r, heq, hl, hm, hr, hla, hma, hra⟩
    have hnotin : '@' ∉ l := by
      intro hmem
      have := List.all_eq_true.mp hla _ hmem
      simp [atomChar] at this
    have hb : breakAtChar '@' s.toList = some (l, m ++ '.' :: r) := by
      rw [heq]; exact breakAtChar_complete l _ hnotin
    rw [EmailSender.validateEmail, hb]
    simp only [Bool.and_eq_true]
    refine ⟨⟨⟨(not_isEmpty_iff_ne_nil l).mpr hl, hla⟩, ?_⟩, ?_⟩
    · simp only [List.all_append, List.all_cons, Bool.and_eq_true]
      exact ⟨hma, by decide, hra⟩
    · exact (hasInteriorDot_iff _).mpr ⟨m, r, rfl, hm, hr⟩

/-! ## Helper lemmas about the markup stripper -/

theorem dropThroughGt_length (cs : List Char) :
    ∀ (r : List Char), dropThroughGt cs = some r → r.length < cs.length := by
  induction cs with
  | nil => intro r h; simp [dropThroughGt] at h
  | cons c cs ih =>
    intro r h
    rw [dropThroughGt] at h
    split at h
    · injection h with h2
      subst h2
      simp [List.length_cons]
    · have := ih r h
      simp only [List.length_cons]
      omega

theorem dropThroughGt_no_gt (t : List Char) :
    ∀ (b : List Char), '>' ∉ t → dropThroughGt (t ++ '>' :: b) = some b := by
  induction t with
  | nil => intro b _; simp [dropThroughGt]
  | cons c t ih =>
    intro b hnot
    have hc : ¬(c = '>') := fun h => hnot (by rw [h]; exact List.mem_cons_self _ _)
    have ht : '>' ∉ t := fun h => hnot (List.mem_cons_of_mem _ h)
    rw [List.cons_append, dropThroughGt, if_neg hc]
    exact ih b ht

theorem stripHtmlFuel_fuel_irrel (f1 : Nat) :
    ∀ (f2 : Nat) (l : List Char), l.length ≤ f1 → l.length ≤ f2 →
      stripHtmlFuel f1 l = stripHtmlFuel f2 l := by
  induction f1 with
  | zero =>
    intro f2 l h1 _
    have : l = [] := List.length_eq_zero.mp (Nat.le_zero.mp h1)
    subst this
    cases f2 <;> rfl
  | succ f1 ih =>
    intro f2 l h1 h2
    match l with
    | [] => cases f2 <;> rfl
    | c :: cs =>
      match f2 with
      | 0 => exact absurd h2 (by simp)
      | f2 + 1 =>
        have hcs1 : cs.length ≤ f1 := by simp only [List.length_cons] at h1; omega
        have hcs2 : cs.length ≤ f2 := by simp only [List.length_cons] at h2; omega
        rw [stripHtmlFuel, stripHtmlFuel]
        by_cases hc : c = '<'
        · rw [if_pos hc, if_pos hc]
          cases hd : dropThroughGt cs with
          | none => rfl
          | some rest =>
            have hr := dropThroughGt_length cs rest hd
            exact ih f2 rest (by omega) (by omega)
        · rw [if_neg hc, if_neg hc, ih f2 cs hcs1 hcs2]

theorem stripChars_eq_fuel (fuel : Nat) (l : List Char) (h : l.length ≤ fuel) :
    stripChars l = stripHtmlFuel fuel l :=
  stripHtmlFuel_fuel_irrel l.length fuel l (Nat.le_refl _) h

theorem stripHtmlFuel_no_tag (l : List Char) :
    ∀ (fuel : Nat), l.length ≤ fuel → '<' ∉ l → stripHtmlFuel fuel l = l := by
  induction l with
  | nil => intro fuel _ _; cases fuel <;> rfl
  | cons c cs ih =>
    intro fuel h hnot
    match fuel with
    | 0 => exact absurd h (by simp)
    | fuel + 1 =>
      have hc : ¬(c = '<') := fun hh => hnot (by rw [hh]; exact List.mem_cons_self _ _)
      have hcs : '<' ∉ cs := fun hh => hnot (List.mem_cons_of_mem _ hh)
      rw [stripHtmlFuel, if_neg hc, ih fuel (by simp only [List.length_cons] at h; omega) hcs]

/-- On a string with no `<` at all, the stripper is the identity. -/
theorem stripChars_no_tag (l : List Char) (h : '<' ∉ l) : stripChars l = l :=
  stripHtmlFuel_no_tag l l.length (Nat.le_refl _) h

theorem stripHtmlFuel_tag (a : List Char) :
    ∀ (t b : List Char) (fuel : Nat),
      (a ++ '<' :: (t ++ '>' :: b)).length ≤ fuel → '<' ∉ a → '>' ∉ t →
      stripHtmlFuel fuel (a ++ '<' :: (t ++ '>' :: b)) = a ++ stripChars b := by
  induction a with
  | nil =>
    intro t b fuel h _ ht
    match fuel with
    | 0 => exact absurd h (by simp)
    | fuel + 1 =>
      have hb : b.length ≤ fuel := by
        simp only [List.nil_append, List.length_cons, List.length_append] at h
        omega
      rw [List.nil_append, stripHtmlFuel, if_pos rfl, dropThroughGt_no_gt t b ht,
        List.nil_append]
      exact (stripChars_eq_fuel fuel b hb).symm
  | cons c a ih =>
    intro t b fuel h hnot ht
    match fuel with
    | 0 => exact absurd h (by simp)
    | fuel + 1 =>
      have hc : ¬(c = '<') := fun hh => hnot (by rw [hh]; exact List.mem_cons_self _ _)
      have ha : '<' ∉ a := fun hh => hnot (List.mem_cons_of_mem _ hh)
      have hlen : (a ++ '<' :: (t ++ '>' :: b)).length ≤ fuel := by
        simp only [List.cons_append, List.length_cons] at h
        omega
      rw [List.cons_append, stripHtmlFuel, if_neg hc, ih t b fuel hlen ha ht, List.cons_append]

/-- Removing one well-formed tag: text before (no `<`), tag body (no `>`). -/
theorem stripChars_tag (a t b : List Char) (ha : '<' ∉ a) (ht : '>' ∉ t) :
    stripChars (a ++ '<' :: (t ++ '>' :: b)) = a ++ stripChars b :=
  stripHtmlFuel_tag a t b (a ++ '<' :: (t ++ '>' :: b)).length (Nat.le_refl _) ha ht

/-! ## Helper lemmas about the campaign loop -/

theorem sendCampaignLoopFuel_spec (transport : SendPayload → TransportBehavior)
    (mkData : String → EmailData) :
    ∀ (fuel : Nat) (rs : List String), rs.length ≤ fuel →
      sendCampaignLoopFuel transport mkData fuel rs =
        ⟨rs.map (fun x => EmailSender.sendEmail transport (mkData x)),
         rs.map (fun x => EmailSender.mkPayload (mkData x)),
         (rs.length - 1) / EmailSender.batchSize⟩ := by
  intro fuel
  induction fuel with
  | zero =>
    intro rs h
    have : rs = [] := List.length_eq_zero.mp (Nat.le_zero.mp h)
    subst this
    rfl
  | succ fuel ih =>
    intro rs h
    match rs with
    | [] => rfl
    | r :: rs =>
      have hlen : ((r :: rs).drop EmailSender.batchSize).length ≤ fuel := by
        simp only [List.length_drop, List.length_cons, EmailSender.batchSize]
        simp only [List.length_cons] at h
        omega
      rw [sendCampaignLoopFuel]
      simp only [ih _ hlen, CampaignTrace.mk.injEq]
      refine ⟨?_, ?_, ?_⟩
      · rw [← List.map_append, List.take_append_drop]
      · rw [← List.map_append, List.take_append_drop]
      · simp only [List.length_drop, List.length_cons, EmailSender.batchSize]
        split
        · next hlt => omega
        · next hlt => omega

/-- Closed form of `sendCampaign`: outcomes and transport calls are the input
list mapped through the per-recipient send, and the number of inter-batch
delays is `(n - 1) / batchSize`. -/
theorem sendCampaign_spec (transport : SendPayload → TransportBehavior)
    (recipients : List String) (subject content : String) (from_ : Option String) :
    EmailSender.sendCampaign transport recipients subject content from_ =
      ⟨recipients.map
         (fun x => EmailSender.sendEmail transport (campaignEmailData subject content from_ x)),
       recipients.map
         (fun x => EmailSender.mkPayload (campaignEmailData subject content from_ x)),
       (recipients.length - 1) / EmailSender.batchSize⟩ :=
  sendCampaignLoopFuel_spec transport _ recipients.length recipients (Nat.le_refl _)

/-- The transport invocations of `sendEmail`: exactly one call, at the payload
built from the email data. -/
theorem sendEmail_cases (transport : SendPayload → TransportBehavior) (d : EmailData) :
    (∃ dataId, transport (EmailSender.mkPayload d) = .resolve dataId none ∧
        EmailSender.sendEmail transport d = ⟨true, dataId, none⟩) ∨
    (∃ msg, EmailSender.sendEmail transport d = ⟨false, none, some msg⟩) := by
  cases ht : transport (EmailSender.mkPayload d) with
  | resolve dataId errorMsg =>
    cases errorMsg with
    | none =>
      left
      exact ⟨dataId, rfl, by simp only [EmailSender.sendEmail, EmailSender.sendEmailAttempt, ht]⟩
    | some msg =>
      right
      exact ⟨msg, by simp only [EmailSender.sendEmail, EmailSender.sendEmailAttempt, ht]⟩
  | reject thrown =>
    right
    exact ⟨thrown.getD "Unknown error",
      by simp only [EmailSender.sendEmail, EmailSender.sendEmailAttempt, ht]⟩

/-! ## Claim theorems -/

/-- C1: for every recipient list (duplicates permitted), `sendCampaign`
returns one outcome per recipient, and the outcome at index `i` is the
outcome of the send attempt for recipient `i`; outcomes are never
reordered relative to the input list. -/
theorem c1_outcomes_align_with_recipients (transport : SendPayload → TransportBehavior)
    (recipients : List String) (subject content : String) (from_ : Option String) :
    (EmailSender.sendCampaign transport recipients subject content from_).results.length
        = recipients.length ∧
    (EmailSender.sendCampaign transport recipients subject content from_).results
        = recipients.map
            (fun x => EmailSender.sendEmail transport (campaignEmailData subject content from_ x)) ∧
    ∀ (i : Nat) (hi : i < recipients.length),
      (EmailSender.sendCampaign transport recipients subject content from_).results[i]?
        = some (EmailSender.sendEmail transport
            (campaignEmailData subject content from_ recipients[i])) := by
  rw [sendCampaign_spec]
  refine ⟨by simp, rfl, ?_⟩
  intro i hi
  simp [List.getElem?_map, List.getElem?_eq_getElem hi]

/-- Witness for C1 at a concrete two-recipient campaign. -/
theorem c1_witness :
    (EmailSender.sendCampaign alwaysOkTransport ["a@x.com", "b@x.com"] "Hi" "hello" none).results[0]?
      = some (EmailSender.sendEmail alwaysOkTransport
          (campaignEmailData "Hi" "hello" none "a@x.com")) := by
  have h := (c1_outcomes_align_with_recipients alwaysOkTransport ["a@x.com", "b@x.com"]
      "Hi" "hello" none).2.2 0 (by decide)
  simpa using h

/-- C2 counterexample: with an always-succeeding transport, the invalid
address "bad" nevertheless yields Success, not Failure("invalid address"):
`sendEmail` performs no local validation before calling the transport. -/
theorem c2_counterexample :
    (EmailSender.sendCampaign alwaysOkTransport ["a@x.com", "bad", "c@x.com"] "Hi" "<p>hi</p>"
        none).results[1]?
      = some ⟨true, some "msg-1", none⟩ ∧
    EmailSender.validateEmail "bad" = false ∧
    (⟨true, some "msg-1", none⟩ : EmailResponse) ≠ ⟨false, none, some "invalid address"⟩ := by
  decide

/-- C2 amended: the per-recipient send performs no local address validation
(`validateEmail` is defined but never invoked by `sendEmail` or
`sendCampaign`); every recipient, invalid ones included, receives exactly one
transport call, and the claimed scenario with an always-succeeding transport
returns [Success, Success, Success]. -/
theorem c2_amended_no_local_validation :
    (EmailSender.sendCampaign alwaysOkTransport ["a@x.com", "bad", "c@x.com"] "Hi" "<p>hi</p>"
        none).results
      = [⟨true, some "msg-1", none⟩, ⟨true, some "msg-1", none⟩, ⟨true, some "msg-1", none⟩] ∧
    (EmailSender.sendCampaign alwaysOkTransport ["a@x.com", "bad", "c@x.com"] "Hi" "<p>hi</p>"
        none).transportCalls.length = 3 := by
  decide

/-- C3 counterexample: with an empty subject and an empty body the call does
not abort before any transport call — the transport is invoked and a
per-recipient outcome list is returned. -/
theorem c3_counterexample :
    (EmailSender.sendCampaign alwaysOkTransport ["a@x.com"] "" "" none).transportCalls.length
        = 1 ∧
    (EmailSender.sendCampaign alwaysOkTransport ["a@x.com"] "" "" none).results
        = [⟨true, some "msg-1", none⟩] := by
  decide

/-- C3 amended: `sendCampaign` performs no whole-call validation: an empty
subject and body are passed through to one per-recipient transport call per
recipient, and an empty recipient list yields the empty outcome list as a
normal return (no abort path exists). -/
theorem c3_amended_no_whole_call_validation (transport : SendPayload → TransportBehavior)
    (rs : List String) (subject content : String) (from_ : Option String) :
    (EmailSender.sendCampaign transport rs "" "" from_).results.length = rs.length ∧
    (EmailSender.sendCampaign transport rs "" "" from_).transportCalls.length = rs.length ∧
    EmailSender.sendCampaign transport [] subject content from_ = ⟨[], [], 0⟩ := by
  rw [sendCampaign_spec]
  exact ⟨by simp, by simp, rfl⟩

/-- C4 counterexample: "a@b" satisfies the claimed two-part no-whitespace
grammar, yet `validateEmail` rejects it (the regex additionally requires a
dot inside the domain). -/
theorem c4_counterexample :
    specTwoPartAddress "a@b" = true ∧ EmailSender.validateEmail "a@b" = false := by
  decide

/-- C4 amended: `validateEmail` is a pure function returning true iff the
string splits as local ++ at ++ domainHead ++ dot ++ domainTail with all
three parts non-empty and free of whitespace and of further at signs (so the
domain must contain a dot that is neither its first nor its last character);
the claimed concrete examples hold. -/
theorem c4_amended_validator (s : String) :
    (EmailSender.validateEmail s = true ↔
      ∃ l m r : List Char, s.toList = l ++ '@' :: (m ++ '.' :: r) ∧
        l ≠ [] ∧ m ≠ [] ∧ r ≠ [] ∧
        l.all atomChar = true ∧ m.all atomChar = true ∧ r.all atomChar = true) ∧
    EmailSender.validateEmail "a@b.com" = true ∧
    EmailSender.validateEmail "not-an-address" = false ∧
    EmailSender.validateEmail "" = false :=
  ⟨validateEmail_characterization s, by decide, by decide, by decide⟩

/-- Witness for C4: the backward direction of the characterization at a
concrete decomposition. -/
theorem c4_witness : EmailSender.validateEmail "x@y.z" = true :=
  (c4_amended_validator "x@y.z").1.mpr ⟨['x'], ['y'], ['z'], by decide⟩

/-- C5: the number of inter-batch delays is (n - 1) / batchSize — i.e. one
delay after each completed batch except the final one — and for 25
recipients with batch size 10 exactly 2 delays occur. -/
theorem c5_batch_delays (transport : SendPayload → TransportBehavior)
    (recipients : List String) (subject content : String) (from_ : Option String) :
    (EmailSender.sendCampaign transport recipients subject content from_).delays
        = (recipients.length - 1) / EmailSender.batchSize ∧
    (recipients.length = 25 →
      (EmailSender.sendCampaign transport recipients subject content from_).delays = 2) := by
  rw [sendCampaign_spec]
  refine ⟨rfl, ?_⟩
  intro h25
  simp [h25, EmailSender.batchSize]

/-- Witness for C5 on a concrete 25-recipient list. -/
theorem c5_witness :
    (EmailSender.sendCampaign alwaysOkTransport (List.replicate 25 "a@x.com") "Hi" "b"
        none).delays = 2 :=
  (c5_batch_delays alwaysOkTransport (List.replicate 25 "a@x.com") "Hi" "b" none).2 (by decide)

/-- C6: a rejected transport promise (network fault, timeout) is caught at
the per-recipient boundary and converted into a Failure carrying the fault
description; at campaign level that recipient receives exactly that Failure
outcome.  `sendEmail` is the total catch of `sendEmailAttempt`, so no fault
can propagate out of `sendCampaign`, whose result type has no exception
path. -/
theorem c6_fault_converted (transport : SendPayload → TransportBehavior)
    (subject content : String) (from_ : Option String) (rs : List String)
    (i : Nat) (hi : i < rs.length) (thrown : Option String)
    (h : transport (EmailSender.mkPayload (campaignEmailData subject content from_ rs[i]))
        = .reject thrown) :
    EmailSender.sendEmail transport (campaignEmailData subject content from_ rs[i])
        = ⟨false, none, some (thrown.getD "Unknown error")⟩ ∧
    (EmailSender.sendCampaign transport rs subject content from_).results[i]?
        = some ⟨false, none, some (thrown.getD "Unknown error")⟩ := by
  have hsend : EmailSender.sendEmail transport (campaignEmailData subject content from_ rs[i])
      = ⟨false, none, some (thrown.getD "Unknown error")⟩ := by
    simp only [EmailSender.sendEmail, EmailSender.sendEmailAttempt, h]
  refine ⟨hsend, ?_⟩
  rw [sendCampaign_spec]
  simp [List.getElem?_map, List.getElem?_eq_getElem hi, hsend]

/-- Witness for C6 with a concrete rejecting transport. -/
theorem c6_witness :
    EmailSender.sendEmail alwaysFaultTransport (campaignEmailData "Hi" "b" none "a@x.com")
        = ⟨false, none, some "network error"⟩ ∧
    (EmailSender.sendCampaign alwaysFaultTransport ["a@x.com"] "Hi" "b" none).results[0]?
        = some ⟨false, none, some "network error"⟩ := by
  have h := c6_fault_converted alwaysFaultTransport "Hi" "b" none ["a@x.com"] 0 (by decide)
      (some "network error") rfl
  simpa using h

/-- C7: `sendCampaign` never short-circuits: for every transport behaviour
(in particular one that fails for any recipients), every entry of the list
receives exactly one transport attempt, in input order, and exactly one
outcome. -/
theorem c7_no_short_circuit (transport : SendPayload → TransportBehavior)
    (rs : List String) (subject content : String) (from_ : Option String) :
    (EmailSender.sendCampaign transport rs subject content from_).transportCalls
        = rs.map (fun x => EmailSender.mkPayload (campaignEmailData subject content from_ x)) ∧
    (EmailSender.sendCampaign transport rs subject content from_).results.length = rs.length := by
  rw [sendCampaign_spec]
  exact ⟨rfl, by simp⟩

/-- C8: every outcome is exactly one of Success or Failure: when the
transport resolves with an id and no error the outcome is Success with that
id and no error reason; a successful outcome never carries an error; a
failed outcome carries no message id and always carries a reason. -/
theorem c8_outcome_exclusive (transport : SendPayload → TransportBehavior) (d : EmailData) :
    (∀ id : String,
        transport (EmailSender.mkPayload d) = .resolve (some id) none →
        EmailSender.sendEmail transport d = ⟨true, some id, none⟩) ∧
    ((EmailSender.sendEmail transport d).success = true →
        (EmailSender.sendEmail transport d).error = none) ∧
    ((EmailSender.sendEmail transport d).success = false →
        (EmailSender.sendEmail transport d).messageId = none ∧
        (EmailSender.sendEmail transport d).error.isSome = true) := by
  refine ⟨?_, ?_, ?_⟩
  · intro id h
    simp only [EmailSender.sendEmail, EmailSender.sendEmailAttempt, h]
  · intro hs
    rcases sendEmail_cases transport d with ⟨dataId, _, he⟩ | ⟨msg, he⟩
    · rw [he]
    · simp [he] at hs
  · intro hs
    rcases sendEmail_cases transport d with ⟨dataId, _, he⟩ | ⟨msg, he⟩
    · simp [he] at hs
    · rw [he]; exact ⟨rfl, rfl⟩

/-- Witness for C8 with the always-succeeding transport. -/
theorem c8_witness :
    EmailSender.sendEmail alwaysOkTransport (campaignEmailData "Hi" "b" none "a@x.com")
      = ⟨true, some "msg-1", none⟩ :=
  (c8_outcome_exclusive alwaysOkTransport (campaignEmailData "Hi" "b" none "a@x.com")).1
    "msg-1" rfl

/-- C9 counterexample: a supplied but empty plain text is not used as-is;
the code falls back to the stripped content ("hi", not ""). -/
theorem c9_counterexample :
    (EmailSender.mkPayload
        { «to» := .single "a@x.com", subject := "Hi", content := "<p>hi</p>",
          from_ := none, html := none, text := some "" }).text = "hi" ∧
    ("hi" : String) ≠ "" := by
  decide

/-- C9 amended: when the plain text is absent or empty (JavaScript falsy),
the text passed to the transport is the content with every bracketed tag
removed and all non-tag text preserved; a supplied non-empty plain text is
used as-is. -/
theorem c9_amended_text_fallback (d : EmailData) :
    ((d.text = none ∨ d.text = some "") →
        (EmailSender.mkPayload d).text = EmailSender.stripHtml d.content) ∧
    (∀ s : String, d.text = some s → s ≠ "" → (EmailSender.mkPayload d).text = s) ∧
    (∀ a t b : List Char, '<' ∉ a → '>' ∉ t →
        EmailSender.stripHtml (String.mk (a ++ '<' :: (t ++ '>' :: b)))
          = String.mk (a ++ (EmailSender.stripHtml (String.mk b)).toList)) ∧
    (∀ a : List Char, '<' ∉ a → EmailSender.stripHtml (String.mk a) = String.mk a) := by
  refine ⟨?_, ?_, ?_, ?_⟩
  · rintro (h | h) <;> simp [EmailSender.mkPayload, jsOrDefault, h]
  · intro s hs hne
    simp [EmailSender.mkPayload, jsOrDefault, hs, hne]
  · intro a t b ha ht
    show String.mk (stripChars (a ++ '<' :: (t ++ '>' :: b))) = String.mk (a ++ stripChars b)
    exact congrArg String.mk (stripChars_tag a t b ha ht)
  · intro a ha
    show String.mk (stripChars a) = String.mk a
    exact congrArg String.mk (stripChars_no_tag a ha)

/-- Witness for C9: absent plain text falls back to the stripped content. -/
theorem c9_witness :
    (EmailSender.mkPayload
        { «to» := .single "a@x.com", subject := "Hi", content := "<p>hi</p>",
          from_ := none, html := none, text := none }).text
      = EmailSender.stripHtml "<p>hi</p>" :=
  (c9_amended_text_fallback
      { «to» := .single "a@x.com", subject := "Hi", content := "<p>hi</p>",
        from_ := none, html := none, text := none }).1 (Or.inl rfl)

/-- C10: a campaign over the empty recipient list returns the empty outcome
list without throwing, makes no transport call and inserts no delay. -/
theorem c10_empty_campaign (transport : SendPayload → TransportBehavior)
    (subject content : String) (from_ : Option String) :
    EmailSender.sendCampaign transport [] subject content from_ = ⟨[], [], 0⟩ :=
  rfl
